import Mathlib

/-!
Shallow embedding of the MCP tool-dispatch server (`src/server.js`) and the
project context store (`src/lib/context-manager.js`).

Modelling conventions:
* JavaScript objects become Lean structures; a field that may be absent from
  the object is an `Option`.
* Date values are modelled as parsed integer timestamps (milliseconds).
  `Option Int` stands for a possibly-absent date field; `none` covers both an
  absent field and an unparseable value (`new Date(undefined)` is an Invalid
  Date, and every `<`/`>=` comparison against an Invalid Date is false, which
  the `match _, none => false` branches reproduce).
* The JavaScript `x || d` default on a string field is `jsOrElse`, which maps
  both an absent field and the empty string (falsy) to the default.
* `Map` becomes an association list whose `set` keeps insertion order.
* Thrown errors become `Except String`.
-/

namespace MCP

/-- A JSON-ish argument value. Only the shape matters to the dispatcher:
validation looks at key presence, never at the value. -/
inductive JVal where
  | str (s : String)
  | num (n : Int)
  | boolean (b : Bool)
  | null
deriving Repr, DecidableEq

/-- The `arguments` mapping of a call request: own keys paired with values. -/
abbrev Args := List (String × JVal)

/-- `field in args`: own-key presence, independent of the value. -/
def hasKey (args : Args) (field : String) : Bool :=
  args.any (fun kv => kv.1 = field)

/-- An operation's declared input schema. The source only ever reads
`schema.required`; `properties` is ignored by validation. -/
structure InputSchema where
  required : Option (List String) := none
deriving Repr, DecidableEq

/-- What a tool's `execute` resolves to: `text` is the optional `.text`
field of the returned object, `json` stands for `JSON.stringify(result)`. -/
structure ToolResult where
  text : Option String := none
  json : String := ""
deriving Repr, DecidableEq

/-- A registered tool: description, input schema, handler. The handler may
throw (`Except.error`). -/
structure Tool where
  description : String := ""
  inputSchema : Option InputSchema := none
  execute : Args → Except String ToolResult

/-- The registry `allTools`: name/tool pairs; lookup takes the first match,
as property access on the spread-merged object would. -/
abbrev Registry := List (String × Tool)

/-- `allTools[name]`. -/
def lookupTool (reg : Registry) (name : String) : Option Tool :=
  (reg.find? (fun kv => kv.1 = name)).map (fun kv => kv.2)

/-- The response envelope. `content` always holds a single text block, so the
model keeps just its `text`; `isError` is `none` when the source object has no
`isError` key at all (the success path) and `some true` on the error path. -/
structure Envelope where
  text : String
  isError : Option Bool
deriving Repr, DecidableEq

/-- `validateArguments(args, schema)` from `src/server.js`, reshaped to
return the list of missing required fields (the source throws when that list
is nonempty; the caller `handle` below performs the throw). An absent schema
or an absent `required` key validates trivially. -/
def validateArguments (args : Args) (schema : Option InputSchema) : List String :=
  match schema with
  | none => []
  | some s =>
    match s.required with
    | none => []
    | some req => req.filter (fun field => !(hasKey args field))

/-- The `CallToolRequestSchema` handler: resolve the tool, validate the
arguments, run the handler, wrap result or error. The second component counts
handler (`tool.execute`) invocations. -/
def handle (reg : Registry) (name : String) (args : Args) : Envelope × Nat :=
  match lookupTool reg name with
  | none =>
    ({ text := "Error executing " ++ name ++ ": Unknown tool: " ++ name,
       isError := some true }, 0)
  | some tool =>
    match validateArguments args tool.inputSchema with
    | [] =>
      match tool.execute args with
      | Except.ok result =>
        ({ text := match result.text with
                    | some t => if t = "" then result.json else t
                    | none => result.json,
           isError := none }, 1)
      | Except.error msg =>
        ({ text := "Error executing " ++ name ++ ": " ++ msg,
           isError := some true }, 1)
    | missing =>
      ({ text := "Error executing " ++ name ++ ": Missing required arguments: "
                   ++ String.intercalate ", " missing,
         isError := some true }, 0)

end MCP

namespace CM

/-- JavaScript `x || dflt` on a possibly-absent string field: both an absent
key and the empty string (falsy) fall back to the default. -/
def jsOrElse (x : Option String) (dflt : String) : String :=
  match x with
  | some v => if v = "" then dflt else v
  | none => dflt

/-- A document child record (`addDocument`). -/
structure Document where
  id : String := ""
  type : Option String := none
  title : Option String := none
  content : Option String := none
  addedAt : Int := 0
deriving Repr, DecidableEq

/-- A stored task (`addTask`'s `newTask`). The `date` field exists because a
caller-supplied task object may carry one; `addTask` itself never sets it. -/
structure Task where
  id : String
  description : Option String := none
  deadline : Option Int := none
  date : Option Int := none
  priority : Option String := none
  assignee : Option String := none
  source : Option String := none
  status : String := "pending"
  createdAt : Int := 0
  updatedAt : Option Int := none
deriving Repr, DecidableEq

/-- The task object a caller passes to `addTask`. -/
structure TaskInput where
  description : Option String := none
  deadline : Option Int := none
  date : Option Int := none
  priority : Option String := none
  assignee : Option String := none
  source : Option String := none
  status : Option String := none
deriving Repr, DecidableEq

/-- A stored risk (`addRisk`'s `newRisk`). -/
structure Risk where
  id : String
  description : Option String := none
  severity : Option String := none
  category : Option String := none
  status : String := "active"
  identifiedAt : Int := 0
  resolvedAt : Option Int := none
deriving Repr, DecidableEq

/-- The risk object a caller passes to `addRisk`. -/
structure RiskInput where
  description : Option String := none
  severity : Option String := none
  category : Option String := none
  status : Option String := none
deriving Repr, DecidableEq

/-- A stakeholder record (`addStakeholder`). -/
structure Stakeholder where
  name : Option String := none
  role : Option String := none
  addedAt : Int := 0
deriving Repr, DecidableEq

/-- Input to `addStakeholder`. -/
structure StakeholderInput where
  name : Option String := none
  role : Option String := none
deriving Repr, DecidableEq

/-- A note record (`addNote`). -/
structure Note where
  text : String
  timestamp : Int
deriving Repr, DecidableEq

/-- A project aggregate. `timeline`/`financials` start as the empty object. -/
structure Project where
  id : String
  name : Option String := none
  description : Option String := none
  created : Int := 0
  lastUpdated : Option Int := none
  documents : List Document := []
  tasks : List Task := []
  risks : List Risk := []
  stakeholders : List Stakeholder := []
  timeline : List (String × Int) := []
  financials : List (String × Int) := []
  notes : List Note := []
deriving Repr, DecidableEq

/-- The partial `data` object passed to `updateProject`: `none` means the key
is absent from the object, so the spread keeps the existing value. -/
structure ProjectData where
  id : Option String := none
  name : Option String := none
  description : Option String := none
  created : Option Int := none
  lastUpdated : Option Int := none
  documents : Option (List Document) := none
  tasks : Option (List Task) := none
  risks : Option (List Risk) := none
  stakeholders : Option (List Stakeholder) := none
  timeline : Option (List (String × Int)) := none
  financials : Option (List (String × Int)) := none
  notes : Option (List Note) := none
deriving Repr, DecidableEq

/-- A deadline record in the flat `deadlines` list. A task-derived record
keeps the task's `deadline` field; the queries read `date`. -/
structure Deadline where
  id : String
  description : Option String := none
  date : Option Int := none
  deadline : Option Int := none
  status : Option String := none
  projectId : Option String := none
  project : Option String := none
  addedAt : Int := 0
deriving Repr, DecidableEq

/-- Input object for `addDeadline`. -/
structure DeadlineInput where
  id : Option String := none
  description : Option String := none
  date : Option Int := none
  deadline : Option Int := none
  status : Option String := none
  projectId : Option String := none
  project : Option String := none
deriving Repr, DecidableEq

/-- An active-issue entry: a denormalized copy of a high/critical risk. -/
structure Issue where
  id : String
  description : Option String := none
  severity : Option String := none
  category : Option String := none
  status : String := "active"
  identifiedAt : Int := 0
  resolvedAt : Option Int := none
  projectId : String := ""
  project : Option String := none
  type : String := "risk"
deriving Repr, DecidableEq

/-- An activity-log entry. -/
structure Activity where
  type : String
  projectId : Option String := none
  timestamp : Int := 0
  summary : String := ""
deriving Repr, DecidableEq

/-- The ContextManager instance state. -/
structure CMState where
  projects : List (String × Project) := []
  deadlines : List Deadline := []
  activeIssues : List Issue := []
  recentActivity : List Activity := []
deriving Repr, DecidableEq

/-- The freshly constructed (or `clear`ed) ContextManager. -/
def initState : CMState := {}

/-- `Map.prototype.get`. -/
def mapGet (m : List (String × Project)) (k : String) : Option Project :=
  (m.find? (fun kv => kv.1 = k)).map (fun kv => kv.2)

/-- `Map.prototype.set`: update the entry in place when the key exists
(insertion order kept), append otherwise. Keys are unique by construction, so
updating the first occurrence is the map semantics. -/
def mapSet : List (String × Project) → String → Project → List (String × Project)
  | [], k, v => [(k, v)]
  | kv :: rest, k, v =>
    if kv.1 = k then (k, v) :: rest else kv :: mapSet rest k v

/-- The empty-skeleton project `updateProject` builds for an unseen id. -/
def emptyProject (projectId : String) (now : Int) : Project :=
  { id := projectId, created := now }

/-- `{ ...existing, ...data, lastUpdated: new Date() }`. -/
def mergeData (existing : Project) (data : ProjectData) (now : Int) : Project :=
  { id := data.id.getD existing.id,
    name := match data.name with | some v => some v | none => existing.name,
    description :=
      match data.description with | some v => some v | none => existing.description,
    created := data.created.getD existing.created,
    lastUpdated := some now,
    documents := data.documents.getD existing.documents,
    tasks := data.tasks.getD existing.tasks,
    risks := data.risks.getD existing.risks,
    stakeholders := data.stakeholders.getD existing.stakeholders,
    timeline := data.timeline.getD existing.timeline,
    financials := data.financials.getD existing.financials,
    notes := data.notes.getD existing.notes }

/-- View a full project as the `data` object an internal caller passes to
`updateProject` (every key present). -/
def projectToData (p : Project) : ProjectData :=
  { id := some p.id, name := p.name,
    description := p.description,
    created := some p.created, lastUpdated := p.lastUpdated,
    documents := some p.documents, tasks := some p.tasks, risks := some p.risks,
    stakeholders := some p.stakeholders, timeline := some p.timeline,
    financials := some p.financials, notes := some p.notes }

/-- `logActivity`: unshift, then cap the log at the 100 most recent. -/
def logActivity (activity : Activity) (log : List Activity) : List Activity :=
  let log1 := activity :: log
  if log1.length > 100 then log1.take 100 else log1

/-- The activity entry `updateProject` logs. -/
def projEntry (now : Int) (projectId : String) : Activity :=
  { type := "project_update", projectId := some projectId, timestamp := now,
    summary := "Project " ++ projectId ++ " updated" }

/-- `updateProject(projectId, data)`: merge onto the existing aggregate or a
fresh skeleton, store, log, return the merged aggregate. -/
def updateProject (now : Int) (s : CMState) (projectId : String)
    (data : ProjectData) : Project × CMState :=
  let existing := (mapGet s.projects projectId).getD (emptyProject projectId now)
  let updated := mergeData existing data now
  (updated,
   { s with
     projects := mapSet s.projects projectId updated,
     recentActivity := logActivity (projEntry now projectId) s.recentActivity })

/-- `getProject`. -/
def getProject (s : CMState) (projectId : String) : Option Project :=
  mapGet s.projects projectId

/-- `getAllProjects`. -/
def getAllProjects (s : CMState) : List Project :=
  s.projects.map (fun kv => kv.2)

/-- `addDocument(projectId, document)`: throws when the project is unknown;
appends the document with a generated id and `addedAt`, then re-stores the
project through `updateProject`. -/
def addDocument (now : Int) (newId : String) (s : CMState) (projectId : String)
    (document : Document) : Except String (Project × CMState) :=
  match mapGet s.projects projectId with
  | none => Except.error ("Project " ++ projectId ++ " not found")
  | some project =>
    let project1 :=
      { project with
        documents := project.documents ++
          [{ document with addedAt := now, id := newId }] }
    let (_, s1) := updateProject now s projectId (projectToData project1)
    Except.ok (project1, s1)

/-- `addTask(projectId, task)`: throws when the project is unknown; builds
`newTask` (generated id, `createdAt`, `status` defaulted to `pending`),
appends it, re-stores the project, and, when `task.deadline` is truthy,
inserts a deadline record spread from `newTask` plus `projectId` and the
project's name. `newId2` stands for the id `addDeadline` would generate (it
is unused because the record already carries the task's id). -/
def addTask (now : Int) (newId newId2 : String) (s : CMState)
    (projectId : String) (task : TaskInput) : Except String (Task × CMState) :=
  match mapGet s.projects projectId with
  | none => Except.error ("Project " ++ projectId ++ " not found")
  | some project =>
    let newTask : Task :=
      { id := newId, description := task.description, deadline := task.deadline,
        date := task.date, priority := task.priority, assignee := task.assignee,
        source := task.source, status := jsOrElse task.status "pending",
        createdAt := now }
    let project1 := { project with tasks := project.tasks ++ [newTask] }
    let (_, s1) := updateProject now s projectId (projectToData project1)
    match task.deadline with
    | some _ =>
      let record : DeadlineInput :=
        { id := some newTask.id, description := newTask.description,
          date := newTask.date, deadline := newTask.deadline,
          status := some newTask.status, projectId := some projectId,
          project := project1.name }
      let newDeadline : Deadline :=
        { id := jsOrElse record.id newId2, description := record.description,
          date := record.date, deadline := record.deadline,
          status := record.status, projectId := record.projectId,
          project := record.project, addedAt := now }
      Except.ok (newTask, { s1 with deadlines := s1.deadlines ++ [newDeadline] })
    | none => Except.ok (newTask, s1)

/-- Replace the first task with the given id (JS mutates the object returned
by `find`, which is the first match). -/
def setFirstTask (tasks : List Task) (taskId : String) (t1 : Task) : List Task :=
  match tasks with
  | [] => []
  | t :: rest =>
    if t.id = taskId then t1 :: rest else t :: setFirstTask rest taskId t1

/-- `updateTaskStatus(projectId, taskId, status)`: throws for an unknown
project or task; sets `status` (any string) and `updatedAt`. -/
def updateTaskStatus (now : Int) (s : CMState) (projectId taskId status : String) :
    Except String (Task × CMState) :=
  match mapGet s.projects projectId with
  | none => Except.error ("Project " ++ projectId ++ " not found")
  | some project =>
    match project.tasks.find? (fun t => t.id = taskId) with
    | none => Except.error ("Task " ++ taskId ++ " not found")
    | some task =>
      let task1 := { task with status := status, updatedAt := some now }
      let project1 :=
        { project with tasks := setFirstTask project.tasks taskId task1 }
      let (_, s1) := updateProject now s projectId (projectToData project1)
      Except.ok (task1, s1)

/-- The denormalized active-issue copy of a risk:
`{ ...newRisk, projectId, project: project.name, type: 'risk' }`. -/
def riskIssue (newRisk : Risk) (projectId : String) (projectName : Option String) :
    Issue :=
  { id := newRisk.id, description := newRisk.description,
    severity := newRisk.severity, category := newRisk.category,
    status := newRisk.status, identifiedAt := newRisk.identifiedAt,
    resolvedAt := newRisk.resolvedAt, projectId := projectId,
    project := projectName, type := "risk" }

/-- `addRisk(projectId, risk)`: throws when the project is unknown; builds
`newRisk` (generated id, `identifiedAt`, `status` defaulted to `active`),
appends it, re-stores the project, then — when the input's severity is
`high` or `critical` — pushes a denormalized copy onto `activeIssues`. -/
def addRisk (now : Int) (newId : String) (s : CMState) (projectId : String)
    (risk : RiskInput) : Except String (Risk × CMState) :=
  match mapGet s.projects projectId with
  | none => Except.error ("Project " ++ projectId ++ " not found")
  | some project =>
    let newRisk : Risk :=
      { id := newId, description := risk.description, severity := risk.severity,
        category := risk.category, status := jsOrElse risk.status "active",
        identifiedAt := now }
    let project1 := { project with risks := project.risks ++ [newRisk] }
    let (_, s1) := updateProject now s projectId (projectToData project1)
    if risk.severity = some "high" ∨ risk.severity = some "critical" then
      Except.ok (newRisk,
        { s1 with
          activeIssues := s1.activeIssues ++
            [riskIssue newRisk projectId project1.name] })
    else
      Except.ok (newRisk, s1)

/-- `addDeadline(deadline)`: never fails; keeps a truthy caller id, otherwise
assigns a generated one, stamps `addedAt`, appends to the flat list. -/
def addDeadline (now : Int) (newId : String) (s : CMState)
    (deadline : DeadlineInput) : Deadline × CMState :=
  let newDeadline : Deadline :=
    { id := jsOrElse deadline.id newId, description := deadline.description,
      date := deadline.date, deadline := deadline.deadline,
      status := deadline.status, projectId := deadline.projectId,
      project := deadline.project, addedAt := now }
  (newDeadline, { s with deadlines := s.deadlines ++ [newDeadline] })

/-- Sort key for deadline queries: the parsed `date`. Every record reaching
the sort has `date = some _`, so the fallback is never used there. -/
def dateKey (d : Deadline) : Int :=
  d.date.getD 0

/-- Stable insertion into a date-sorted list. -/
def insertByDate (d : Deadline) : List Deadline → List Deadline
  | [] => [d]
  | e :: rest =>
    if dateKey d ≤ dateKey e then d :: e :: rest else e :: insertByDate d rest

/-- Stable ascending sort by `date` (`.sort((a, b) => new Date(a.date) -
new Date(b.date))`). -/
def sortByDate : List Deadline → List Deadline
  | [] => []
  | d :: rest => insertByDate d (sortByDate rest)

/-- Milliseconds per day. -/
def msPerDay : Int := 86400000

/-- `getUpcomingDeadlines(daysAhead = 30)`: keep records whose parsed `date`
lies in `[now, now + daysAhead days]`; a record without a `date` fails both
Invalid-Date comparisons and is dropped. Sorted ascending by date. -/
def getUpcomingDeadlines (now : Int) (daysAhead : Int) (s : CMState) :
    List Deadline :=
  sortByDate (s.deadlines.filter (fun d =>
    match d.date with
    | some due => decide (now ≤ due ∧ due ≤ now + daysAhead * msPerDay)
    | none => false))

/-- `getOverdueDeadlines()`: keep records whose parsed `date` is strictly in
the past and whose `status` is not `completed` (`!d.status || d.status !==
'completed'` admits an absent or falsy status, which `≠ some "completed"`
reproduces); a record without a `date` is dropped. Sorted ascending. -/
def getOverdueDeadlines (now : Int) (s : CMState) : List Deadline :=
  sortByDate (s.deadlines.filter (fun d =>
    match d.date with
    | some due => decide (due < now ∧ d.status ≠ some "completed")
    | none => false))

/-- `getActiveIssues()`. -/
def getActiveIssues (s : CMState) : List Issue :=
  s.activeIssues.filter (fun i => i.status = "active")

/-- Resolve the first issue with the given id (JS `find` then in-place
mutation of the found object). -/
def resolveFirst (now : Int) (issueId : String) : List Issue → List Issue
  | [] => []
  | i :: rest =>
    if i.id = issueId then
      { i with status := "resolved", resolvedAt := some now } :: rest
    else
      i :: resolveFirst now issueId rest

/-- `resolveIssue(issueId)`: sets the first matching issue's status to
`resolved` and stamps `resolvedAt`; returns the (updated) issue, `none` when
no issue matches. Projects and deadlines are untouched. -/
def resolveIssue (now : Int) (s : CMState) (issueId : String) :
    Option Issue × CMState :=
  let issues := resolveFirst now issueId s.activeIssues
  (issues.find? (fun i => i.id = issueId), { s with activeIssues := issues })

/-- `addStakeholder(projectId, stakeholder)`. -/
def addStakeholder (now : Int) (s : CMState) (projectId : String)
    (stakeholder : StakeholderInput) : Except String (Project × CMState) :=
  match mapGet s.projects projectId with
  | none => Except.error ("Project " ++ projectId ++ " not found")
  | some project =>
    let project1 :=
      { project with
        stakeholders := project.stakeholders ++
          [{ name := stakeholder.name, role := stakeholder.role, addedAt := now }] }
    let (_, s1) := updateProject now s projectId (projectToData project1)
    Except.ok (project1, s1)

/-- `addNote(projectId, note)`. -/
def addNote (now : Int) (s : CMState) (projectId : String) (note : String) :
    Except String (Project × CMState) :=
  match mapGet s.projects projectId with
  | none => Except.error ("Project " ++ projectId ++ " not found")
  | some project =>
    let project1 :=
      { project with notes := project.notes ++ [{ text := note, timestamp := now }] }
    let (_, s1) := updateProject now s projectId (projectToData project1)
    Except.ok (project1, s1)

/-- `getRecentActivity(limit = 10)`: the `limit` most recent entries, newest
first (the log is kept newest-first by `logActivity`'s unshift). -/
def getRecentActivity (limit : Nat) (s : CMState) : List Activity :=
  s.recentActivity.take limit

/-- The dashboard snapshot. `content` of `projects.list` keeps id, name and
`lastUpdated` per project. -/
structure Dashboard where
  projectsTotal : Nat
  projectsList : List (String × Option String × Option Int)
  tasksTotal : Nat
  tasksActive : Nat
  tasksCompleted : Nat
  risksTotal : Nat
  risksActive : Nat
  deadlinesUpcoming : Nat
  deadlinesOverdue : Nat
  recentActivity : List Activity
deriving Repr, DecidableEq

/-- `getDashboard()`: totals reduce over all projects; `tasks.completed` is
computed as `totalTasks - activeTasks` where active counts status
`pending`. -/
def getDashboard (now : Int) (s : CMState) : Dashboard :=
  let all := getAllProjects s
  let totalTasks := all.foldl (fun sum p => sum + p.tasks.length) 0
  let activeTasks :=
    all.foldl (fun sum p =>
      sum + (p.tasks.filter (fun t => t.status = "pending")).length) 0
  let totalRisks := all.foldl (fun sum p => sum + p.risks.length) 0
  let activeRisks :=
    all.foldl (fun sum p =>
      sum + (p.risks.filter (fun r => r.status = "active")).length) 0
  { projectsTotal := s.projects.length,
    projectsList := all.map (fun p => (p.id, p.name, p.lastUpdated)),
    tasksTotal := totalTasks,
    tasksActive := activeTasks,
    tasksCompleted := totalTasks - activeTasks,
    risksTotal := totalRisks,
    risksActive := activeRisks,
    deadlinesUpcoming := (getUpcomingDeadlines now 7 s).length,
    deadlinesOverdue := (getOverdueDeadlines now s).length,
    recentActivity := getRecentActivity 5 s }

/-- One public mutating operation of the store, with the clock value and any
generated ids it consumes made explicit. -/
inductive Op where
  | update (now : Int) (projectId : String) (data : ProjectData)
  | addDoc (now : Int) (newId : String) (projectId : String) (document : Document)
  | addTsk (now : Int) (newId newId2 : String) (projectId : String) (task : TaskInput)
  | taskStatus (now : Int) (projectId taskId status : String)
  | addRsk (now : Int) (newId : String) (projectId : String) (risk : RiskInput)
  | addDl (now : Int) (newId : String) (deadline : DeadlineInput)
  | resolve (now : Int) (issueId : String)
  | addSh (now : Int) (projectId : String) (stakeholder : StakeholderInput)
  | addNt (now : Int) (projectId : String) (note : String)
deriving Repr, DecidableEq

/-- Apply one operation; a thrown error leaves the state unchanged (every
store method validates before mutating). -/
def step (op : Op) (s : CMState) : CMState :=
  match op with
  | Op.update now projectId data => (updateProject now s projectId data).2
  | Op.addDoc now newId projectId document =>
    match addDocument now newId s projectId document with
    | Except.ok r => r.2
    | Except.error _ => s
  | Op.addTsk now newId newId2 projectId task =>
    match addTask now newId newId2 s projectId task with
    | Except.ok r => r.2
    | Except.error _ => s
  | Op.taskStatus now projectId taskId status =>
    match updateTaskStatus now s projectId taskId status with
    | Except.ok r => r.2
    | Except.error _ => s
  | Op.addRsk now newId projectId risk =>
    match addRisk now newId s projectId risk with
    | Except.ok r => r.2
    | Except.error _ => s
  | Op.addDl now newId deadline => (addDeadline now newId s deadline).2
  | Op.resolve now issueId => (resolveIssue now s issueId).2
  | Op.addSh now projectId stakeholder =>
    match addStakeholder now s projectId stakeholder with
    | Except.ok r => r.2
    | Except.error _ => s
  | Op.addNt now projectId note =>
    match addNote now s projectId note with
    | Except.ok r => r.2
    | Except.error _ => s

/-- Run a sequence of store operations. -/
def run (ops : List Op) (s : CMState) : CMState :=
  ops.foldl (fun acc op => step op acc) s

/-- The activity log produced by a sequence of `logActivity` calls on a fresh
instance. -/
def logAll (activities : List Activity) : List Activity :=
  activities.foldl (fun log a => logActivity a log) []

/-- An operation whose project-update payload does not itself carry an `id`
key (every operation other than a direct `updateProject` qualifies). -/
def opKeepsId (op : Op) : Bool :=
  match op with
  | Op.update _ _ data => data.id.isNone
  | _ => true

/-- Entrywise key/identity agreement of the project map. -/
def ProjInv (s : CMState) : Prop :=
  ∀ kv ∈ s.projects, kv.2.id = kv.1

/-- The `extract_tasks` tool from the static tool table: one required field,
`text`; its handler returns a text result and never throws. -/
def extractTasksTool : MCP.Tool :=
  { description := "Turn transcripts, emails, chats, or notes into a clear list of tasks with dates, owners, and deadlines.",
    inputSchema := some { required := some ["text"] },
    execute := fun _ => Except.ok { text := some "Task extraction requested." } }

/-- A one-tool registry used by concrete witnesses. -/
def reg0 : MCP.Registry := [("extract_tasks", extractTasksTool)]

/-- Concrete store holding the single project `p1` named `Acme`. -/
def c1state : CMState :=
  (updateProject 0 initState "p1" { name := some "Acme" }).2

/-- Concrete store after adding a critical risk to `p1`. -/
def c9state : CMState :=
  match addRisk 5 "r1" c1state "p1" { severity := some "critical" } with
  | Except.ok r => r.2
  | Except.error _ => initState

/-- The risk record built by `addRisk 5 "r1" c1state "p1"` for a critical
severity input. -/
def c6risk : Risk :=
  { id := "r1", severity := some "critical", status := "active",
    identifiedAt := 5 }

/-- A concrete id-preserving operation sequence. -/
def ops0 : List Op :=
  [Op.update 1 "p" { name := some "A" },
   Op.addTsk 2 "t1" "g1" "p" { description := some "x" },
   Op.update 3 "p" { description := some "B" }]

/-- Concrete store: `p1` carrying one task `t1` (status `pending`). -/
def c10state : CMState :=
  match addTask 1 "t1" "g1" c1state "p1" { description := some "x" } with
  | Except.ok r => r.2
  | Except.error _ => initState

/-- Concrete store after marking `t1` as `blocked` (an arbitrary status
string, neither `pending` nor `completed`). -/
def c10after : CMState :=
  match updateTaskStatus 2 c10state "p1" "t1" "blocked" with
  | Except.ok r => r.2
  | Except.error _ => initState

end CM

open MCP CM

/-- C2 (counterexample to the claim as stated): for the unknown name `foo`
the envelope's message is `Error executing foo: Unknown tool: foo`, not
`Unknown operation: foo`. -/
theorem C2_counterexample :
    (lookupTool [] "foo").isNone = true ∧
    (handle [] "foo" []).1.isError = some true ∧
    (handle [] "foo" []).1.text = "Error executing foo: Unknown tool: foo" ∧
    (handle [] "foo" []).1.text ≠ "Unknown operation: foo" := by
  decide

/-- C2 (amended): for every operation name not present in the registry and
any arguments, `handle` returns an envelope with `isError = true` whose
message is `Error executing <name>: Unknown tool: <name>` — in particular it
contains the literal unknown name — and no handler is invoked. -/
theorem C2_unknown_name (reg : Registry) (name : String) (args : Args)
    (h : lookupTool reg name = none) :
    handle reg name args =
      ({ text := "Error executing " ++ name ++ ": Unknown tool: " ++ name,
         isError := some true }, 0) := by
  unfold handle
  rw [h]

/-- Witness for C2: the amended theorem applied to the empty registry and the
name `foo`. -/
theorem C2_witness :
    handle [] "foo" [] =
      ({ text := "Error executing foo: Unknown tool: foo",
         isError := some true }, 0) :=
  C2_unknown_name [] "foo" [] rfl

/-- C3: when a registered operation's schema lists required fields and at
least one is absent from the arguments, `handle` fails with an envelope whose
message lists every missing field joined by `, `, without invoking the
handler; key presence is what counts (any value, falsy included, satisfies
`hasKey`); and an absent or empty `required` list always validates, after
which the handler is invoked. -/
theorem C3_missing_required :
    (∀ (reg : Registry) (name : String) (tool : Tool) (sch : InputSchema)
        (req : List String) (args : Args),
      lookupTool reg name = some tool →
      tool.inputSchema = some sch →
      sch.required = some req →
      req.filter (fun f => !(hasKey args f)) ≠ [] →
      handle reg name args =
        ({ text := "Error executing " ++ name ++ ": Missing required arguments: "
             ++ String.intercalate ", " (req.filter (fun f => !(hasKey args f))),
           isError := some true }, 0)) ∧
    (∀ (f : String) (v : JVal) (rest : Args), hasKey ((f, v) :: rest) f = true) ∧
    (∀ (reg : Registry) (name : String) (tool : Tool) (args : Args),
      lookupTool reg name = some tool →
      (tool.inputSchema = none ∨ tool.inputSchema = some { required := none } ∨
        tool.inputSchema = some { required := some [] }) →
      validateArguments args tool.inputSchema = [] ∧
        (handle reg name args).2 = 1) := by
  refine ⟨?_, ?_, ?_⟩
  · intro reg name tool sch req args hlook hsch hreq hmiss
    cases hf : req.filter (fun f => !(hasKey args f)) with
    | nil => exact absurd hf hmiss
    | cons a as =>
      simp only [handle, hlook, validateArguments, hsch, hreq, hf]
  · intro f v rest
    unfold hasKey
    simp
  · intro reg name tool args hlook hsch
    have hval : validateArguments args tool.inputSchema = [] := by
      rcases hsch with h | h | h <;> rw [h] <;> rfl
    refine ⟨hval, ?_⟩
    simp only [handle, hlook, hval]
    cases hex : tool.execute args <;> simp only [hex]

/-- Witness for C3: dispatching `extract_tasks` with empty arguments yields
the missing-`text` error envelope. -/
theorem C3_witness :
    handle reg0 "extract_tasks" [] =
      ({ text := "Error executing extract_tasks: Missing required arguments: text",
         isError := some true }, 0) :=
  C3_missing_required.1 reg0 "extract_tasks" extractTasksTool
    { required := some ["text"] } ["text"] [] rfl rfl rfl (by decide)

/-- C4 (counterexample to the claim as stated): a successful dispatch returns
an envelope whose `isError` field is absent, not an explicit
`isError = false`. -/
theorem C4_counterexample :
    (handle reg0 "extract_tasks" [("text", JVal.str "hi")]).1.isError ≠ some false ∧
    (handle reg0 "extract_tasks" [("text", JVal.str "hi")]).1 =
      { text := "Task extraction requested.", isError := none } ∧
    (handle reg0 "extract_tasks" [("text", JVal.str "hi")]).2 = 1 := by
  decide

/-- C4 (amended): for every registered operation and argument mapping
satisfying all required fields, `handle` invokes the handler exactly once
and, when the handler does not throw, returns the success envelope
`{content: [{type: "text", text: <string>}]}` with no `isError` field. -/
theorem C4_success_envelope (reg : Registry) (name : String) (tool : Tool)
    (args : Args) (r : ToolResult)
    (hlook : lookupTool reg name = some tool)
    (hval : validateArguments args tool.inputSchema = [])
    (hexec : tool.execute args = Except.ok r) :
    handle reg name args =
      ({ text := match r.text with
                 | some t => if t = "" then r.json else t
                 | none => r.json,
         isError := none }, 1) := by
  simp only [handle, hlook, hval, hexec]

/-- Witness for C4: a complete `extract_tasks` call succeeds with the
handler's text and one handler invocation. -/
theorem C4_witness :
    handle reg0 "extract_tasks" [("text", JVal.str "hi")] =
      ({ text := "Task extraction requested.", isError := none }, 1) :=
  C4_success_envelope reg0 "extract_tasks" extractTasksTool
    [("text", JVal.str "hi")] { text := some "Task extraction requested." }
    rfl rfl rfl

/-- Setting a key makes it readable back. -/
theorem mapGet_mapSet_self (m : List (String × Project)) (k : String)
    (v : Project) : mapGet (mapSet m k v) k = some v := by
  induction m with
  | nil => simp [mapSet, mapGet]
  | cons kv rest ih =>
    by_cases h : kv.1 = k
    · simp [mapSet, h, mapGet]
    · simpa [mapSet, h, mapGet] using ih

/-- Setting a key leaves other keys unchanged. -/
theorem mapGet_mapSet_ne (m : List (String × Project)) (k k' : String)
    (v : Project) (h : k' ≠ k) : mapGet (mapSet m k v) k' = mapGet m k' := by
  have hne : ¬ (k = k') := fun hh => h hh.symm
  induction m with
  | nil => simp [mapSet, mapGet, hne]
  | cons kv rest ih =>
    by_cases hk : kv.1 = k
    · have e1 : mapSet (kv :: rest) k v = (k, v) :: rest := by
        simp [mapSet, hk]
      unfold mapGet
      rw [e1, List.find?_cons_of_neg _ (by simpa using hne),
        List.find?_cons_of_neg _ (by simp [hk, hne])]
    · have e1 : mapSet (kv :: rest) k v = kv :: mapSet rest k v := by
        simp [mapSet, hk]
      unfold mapGet at ih ⊢
      rw [e1]
      by_cases hk' : kv.1 = k'
      · rw [List.find?_cons_of_pos _ (by simpa using hk'),
          List.find?_cons_of_pos _ (by simpa using hk')]
      · rw [List.find?_cons_of_neg _ (by simpa using hk'),
          List.find?_cons_of_neg _ (by simpa using hk')]
        exact ih

/-- C5: `upsertProject` (source name `updateProject`) merges rather than
replaces: writing `{name:"A"}` then `{description:"B"}` to the same id leaves
a stored project carrying both values; the second merge keeps the first
call's fields, refreshes `lastUpdated`, logs one activity entry, stores and
returns the merged aggregate, and a fresh id starts from the empty skeleton.
The operation is total (never fails). -/
theorem C5_upsert_merges (s : CMState) (pid : String) (now1 now2 : Int)
    (p1 : Project) (s1 : CMState) (p2 : Project) (s2 : CMState)
    (h1 : updateProject now1 s pid { name := some "A" } = (p1, s1))
    (h2 : updateProject now2 s1 pid { description := some "B" } = (p2, s2)) :
    getProject s2 pid = some p2 ∧
    p2.name = some "A" ∧ p2.description = some "B" ∧
    p2.lastUpdated = some now2 ∧
    s2.recentActivity = logActivity (projEntry now2 pid) s1.recentActivity ∧
    s2.deadlines = s1.deadlines ∧ s2.activeIssues = s1.activeIssues ∧
    (getProject s pid = none →
      p1.created = now1 ∧ p1.documents = [] ∧ p1.tasks = [] ∧ p1.risks = [] ∧
      p1.stakeholders = [] ∧ p1.notes = []) := by
  have hp1 := congrArg Prod.fst h1
  have hs1 := congrArg Prod.snd h1
  simp only [updateProject] at hp1 hs1
  have hp2 := congrArg Prod.fst h2
  have hs2 := congrArg Prod.snd h2
  simp only [updateProject] at hp2 hs2
  subst hp1 hs1 hp2 hs2
  refine ⟨?_, ?_, rfl, rfl, rfl, rfl, rfl, ?_⟩
  · simp only [getProject]
    exact mapGet_mapSet_self _ _ _
  · rw [mapGet_mapSet_self]
    rfl
  · intro hnone
    simp only [getProject] at hnone
    rw [hnone]
    exact ⟨rfl, rfl, rfl, rfl, rfl, rfl⟩

/-- Witness for C5: the two concrete upserts on a fresh store leave both
fields set. -/
theorem C5_witness :
    ((updateProject 2 (updateProject 1 initState "p" { name := some "A" }).2
        "p" { description := some "B" }).1).name = some "A" ∧
    ((updateProject 2 (updateProject 1 initState "p" { name := some "A" }).2
        "p" { description := some "B" }).1).description = some "B" := by
  have h := C5_upsert_merges initState "p" 1 2
    (updateProject 1 initState "p" { name := some "A" }).1
    (updateProject 1 initState "p" { name := some "A" }).2
    (updateProject 2 (updateProject 1 initState "p" { name := some "A" }).2
      "p" { description := some "B" }).1
    (updateProject 2 (updateProject 1 initState "p" { name := some "A" }).2
      "p" { description := some "B" }).2
    rfl rfl
  exact ⟨h.2.1, h.2.2.1⟩

/-- C6: `addRisk` fails with the project-not-found error for an unknown
project; otherwise it assigns the generated id and `identifiedAt`, defaults
`status` to `active`, and appends the denormalized copy to the active-issues
list exactly when the input severity is `high` or `critical` — so
`getActiveIssues` afterwards gains a matching entry for a `critical` risk
(default status) and is unchanged for a `low` one. -/
theorem C6_addRisk_issues :
    (∀ (now : Int) (newId : String) (s : CMState) (pid : String)
        (risk : RiskInput),
      getProject s pid = none →
      addRisk now newId s pid risk =
        Except.error ("Project " ++ pid ++ " not found")) ∧
    (∀ (now : Int) (newId : String) (s : CMState) (pid : String)
        (risk : RiskInput) (p : Project) (r : Risk) (s' : CMState),
      getProject s pid = some p →
      addRisk now newId s pid risk = Except.ok (r, s') →
      r.id = newId ∧ r.identifiedAt = now ∧
      r.status = jsOrElse risk.status "active" ∧
      ((risk.severity = some "high" ∨ risk.severity = some "critical") →
        s'.activeIssues = s.activeIssues ++ [riskIssue r pid p.name]) ∧
      (¬(risk.severity = some "high" ∨ risk.severity = some "critical") →
        s'.activeIssues = s.activeIssues) ∧
      (risk.status = none → risk.severity = some "critical" →
        getActiveIssues s' = getActiveIssues s ++ [riskIssue r pid p.name]) ∧
      (risk.severity = some "low" →
        getActiveIssues s' = getActiveIssues s)) := by
  constructor
  · intro now newId s pid risk hnone
    simp only [getProject] at hnone
    simp only [addRisk, hnone]
  · intro now newId s pid risk p r s' hsome hok
    simp only [getProject] at hsome
    simp only [addRisk, hsome, updateProject] at hok
    by_cases hsev : risk.severity = some "high" ∨ risk.severity = some "critical"
    · rw [if_pos hsev] at hok
      simp only [Except.ok.injEq, Prod.mk.injEq] at hok
      obtain ⟨hr, hs⟩ := hok
      subst hr hs
      refine ⟨rfl, rfl, rfl, fun _ => rfl, fun hcon => absurd hsev hcon, ?_, ?_⟩
      · intro hst _
        simp only [getActiveIssues, List.filter_append]
        simp [riskIssue, hst, jsOrElse]
      · intro hlow
        rcases hsev with hs1 | hs1 <;> rw [hlow] at hs1 <;> simp at hs1
    · rw [if_neg hsev] at hok
      simp only [Except.ok.injEq, Prod.mk.injEq] at hok
      obtain ⟨hr, hs⟩ := hok
      subst hr hs
      refine ⟨rfl, rfl, rfl, fun hcon => absurd hcon hsev, fun _ => rfl, ?_, ?_⟩
      · intro _ hcrit
        exact absurd (Or.inr hcrit) hsev
      · intro _
        rfl

/-- Witness for C6: adding a critical risk to the concrete store `c1state`
puts exactly the denormalized copy into `getActiveIssues`; the record carries
the generated id, `identifiedAt`, and default status `active`. -/
theorem C6_witness :
    c6risk.id = "r1" ∧ c6risk.status = "active" ∧
    getActiveIssues c9state = getActiveIssues c1state ++
      [riskIssue c6risk "p1" (some "Acme")] := by
  have h := C6_addRisk_issues.2 5 "r1" c1state "p1"
    { severity := some "critical" }
    (mergeData (emptyProject "p1" 0) { name := some "Acme" } 0)
    c6risk c9state rfl rfl
  exact ⟨rfl, rfl, h.2.2.2.2.2.1 rfl rfl⟩

/-- Resolving rewrites exactly the first matching issue, and a subsequent
lookup by the same id finds it with status `resolved` and the timestamp. -/
theorem resolveFirst_find (now : Int) (issueId : String) (l : List Issue)
    (i : Issue) (h : l.find? (fun j => j.id = issueId) = some i) :
    (resolveFirst now issueId l).find? (fun j => j.id = issueId) =
      some { i with status := "resolved", resolvedAt := some now } := by
  induction l with
  | nil => simp at h
  | cons j rest ih =>
    by_cases hj : j.id = issueId
    · rw [List.find?_cons_of_pos _ (by simpa using hj)] at h
      injection h with h
      subst h
      have e1 : resolveFirst now issueId (j :: rest) =
          { j with status := "resolved", resolvedAt := some now } :: rest := by
        simp [resolveFirst, hj]
      rw [e1, List.find?_cons_of_pos _ (by simpa using hj)]
    · rw [List.find?_cons_of_neg _ (by simpa using hj)] at h
      have e1 : resolveFirst now issueId (j :: rest) =
          j :: resolveFirst now issueId rest := by
        simp [resolveFirst, hj]
      rw [e1, List.find?_cons_of_neg _ (by simpa using hj)]
      exact ih h

/-- C9: for an issue id present in the active-issues list, `resolveIssue`
returns that issue with status `resolved` and `resolvedAt` stamped, while the
projects map — and with it every originating risk record — as well as the
deadlines and the activity log are left entirely unchanged. -/
theorem C9_resolveIssue_frame (now : Int) (s : CMState) (issueId : String)
    (i : Issue)
    (hfind : s.activeIssues.find? (fun j => j.id = issueId) = some i) :
    (resolveIssue now s issueId).1 =
      some { i with status := "resolved", resolvedAt := some now } ∧
    (resolveIssue now s issueId).2.projects = s.projects ∧
    (resolveIssue now s issueId).2.deadlines = s.deadlines ∧
    (resolveIssue now s issueId).2.recentActivity = s.recentActivity ∧
    (∀ pid, getProject ((resolveIssue now s issueId).2) pid =
      getProject s pid) := by
  refine ⟨?_, rfl, rfl, rfl, fun pid => rfl⟩
  exact resolveFirst_find now issueId s.activeIssues i hfind

/-- Witness for C9: resolving the critical-risk issue in the concrete store
`c9state` marks the issue resolved and leaves the project map untouched. -/
theorem C9_witness :
    (resolveIssue 9 c9state "r1").1 =
      some { id := "r1", severity := some "critical", status := "resolved",
             identifiedAt := 5, resolvedAt := some 9, projectId := "p1",
             project := some "Acme", type := "risk" } ∧
    (resolveIssue 9 c9state "r1").2.projects = c9state.projects := by
  have h := C9_resolveIssue_frame 9 c9state "r1"
    { id := "r1", severity := some "critical", status := "active",
      identifiedAt := 5, projectId := "p1", project := some "Acme",
      type := "risk" } rfl
  exact ⟨h.1, h.2.1⟩

/-- `logActivity` is exactly unshift-then-truncate-to-100. -/
theorem logActivity_eq (a : Activity) (l : List Activity) :
    logActivity a l = (a :: l).take 100 := by
  unfold logActivity
  by_cases h : (a :: l).length > 100
  · simp [h]
  · rw [if_neg h, List.take_of_length_le (Nat.le_of_not_lt h)]

/-- The log is always at most 100 entries long after a `logActivity` call. -/
theorem logActivity_length (a : Activity) (l : List Activity) :
    (logActivity a l).length ≤ 100 := by
  rw [logActivity_eq, List.length_take]
  exact Nat.min_le_left _ _

/-- Truncating the tail before appending does not change a truncated
append. -/
theorem take_append_take {α : Type} (xs ys : List α) (n : Nat) :
    (xs ++ ys.take n).take n = (xs ++ ys).take n := by
  rw [List.take_append_eq_append_take, List.take_append_eq_append_take,
    List.take_take, Nat.min_eq_left (Nat.sub_le n xs.length)]

/-- Folding `logActivity` over a list of activities from any short log yields
the 100 most recent entries, newest first. -/
theorem foldl_logActivity (as : List Activity) :
    ∀ l : List Activity, l.length ≤ 100 →
      as.foldl (fun log a => logActivity a log) l = (as.reverse ++ l).take 100 := by
  induction as with
  | nil =>
    intro l hl
    simp [List.take_of_length_le hl]
  | cons a as ih =>
    intro l hl
    simp only [List.foldl_cons]
    rw [logActivity_eq, ih ((a :: l).take 100)
      (by rw [List.length_take]; exact Nat.min_le_left _ _)]
    rw [take_append_take, List.reverse_cons, List.append_assoc,
      List.singleton_append]

/-- The fresh-instance log after any sequence of `logActivity` calls. -/
theorem logAll_eq (as : List Activity) : logAll as = as.reverse.take 100 := by
  have h := foldl_logActivity as [] (by simp)
  simpa [logAll] using h

/-- Every store operation either leaves the activity log unchanged or passes
it through one `logActivity` call. -/
theorem step_log (op : Op) (s : CMState) :
    (step op s).recentActivity = s.recentActivity ∨
    ∃ a, (step op s).recentActivity = logActivity a s.recentActivity := by
  cases op with
  | update now pid data =>
    exact Or.inr ⟨projEntry now pid, rfl⟩
  | addDoc now newId pid doc =>
    cases h : mapGet s.projects pid with
    | none => exact Or.inl (by simp [step, addDocument, h])
    | some p =>
      exact Or.inr ⟨projEntry now pid,
        by simp [step, addDocument, h, updateProject]⟩
  | addTsk now newId newId2 pid task =>
    cases h : mapGet s.projects pid with
    | none => exact Or.inl (by simp [step, addTask, h])
    | some p =>
      refine Or.inr ⟨projEntry now pid, ?_⟩
      cases hd : task.deadline with
      | none => simp [step, addTask, h, hd, updateProject]
      | some d => simp [step, addTask, h, hd, updateProject]
  | taskStatus now pid tid st =>
    cases h : mapGet s.projects pid with
    | none => exact Or.inl (by simp [step, updateTaskStatus, h])
    | some p =>
      cases hf : p.tasks.find? (fun t => t.id = tid) with
      | none => exact Or.inl (by simp [step, updateTaskStatus, h, hf])
      | some t =>
        exact Or.inr ⟨projEntry now pid,
          by simp [step, updateTaskStatus, h, hf, updateProject]⟩
  | addRsk now newId pid risk =>
    cases h : mapGet s.projects pid with
    | none => exact Or.inl (by simp [step, addRisk, h])
    | some p =>
      refine Or.inr ⟨projEntry now pid, ?_⟩
      by_cases hs : risk.severity = some "high" ∨ risk.severity = some "critical"
      · simp [step, addRisk, h, hs, updateProject]
      · simp [step, addRisk, h, hs, updateProject]
  | addDl now newId deadline => exact Or.inl rfl
  | resolve now issueId => exact Or.inl rfl
  | addSh now pid stakeholder =>
    cases h : mapGet s.projects pid with
    | none => exact Or.inl (by simp [step, addStakeholder, h])
    | some p =>
      exact Or.inr ⟨projEntry now pid,
        by simp [step, addStakeholder, h, updateProject]⟩
  | addNt now pid note =>
    cases h : mapGet s.projects pid with
    | none => exact Or.inl (by simp [step, addNote, h])
    | some p =>
      exact Or.inr ⟨projEntry now pid,
        by simp [step, addNote, h, updateProject]⟩

/-- The ≤100 bound is preserved along any operation sequence. -/
theorem run_log_le (ops : List Op) :
    ∀ s : CMState, s.recentActivity.length ≤ 100 →
      (run ops s).recentActivity.length ≤ 100 := by
  induction ops with
  | nil => intro s h; exact h
  | cons op ops ih =>
    intro s h
    have hstep : (step op s).recentActivity.length ≤ 100 := by
      rcases step_log op s with h1 | ⟨a, h1⟩
      · rw [h1]; exact h
      · rw [h1]; exact logActivity_length a s.recentActivity
    exact ih (step op s) hstep

/-- C7: the activity log is a strict FIFO cap at 100 — after any sequence of
logged mutations the log is exactly the 100 most recent entries, newest
first (so the 101st mutation evicts the oldest), its length is
`min n 100`, any operation sequence on a fresh store keeps the log within
100 entries, and `getRecentActivity` returns the newest-first prefix. -/
theorem C7_activity_cap :
    (∀ as : List Activity, logAll as = as.reverse.take 100) ∧
    (∀ as : List Activity, (logAll as).length = min as.length 100) ∧
    (∀ ops : List Op, (run ops initState).recentActivity.length ≤ 100) ∧
    (∀ (limit : Nat) (s : CMState),
      getRecentActivity limit s = s.recentActivity.take limit) := by
  refine ⟨logAll_eq, ?_, ?_, fun limit s => rfl⟩
  · intro as
    rw [logAll_eq, List.length_take, List.length_reverse, Nat.min_comm]
  · intro ops
    exact run_log_le ops initState (by simp [initState])

/-- A successful `mapGet` exhibits a stored entry. -/
theorem mapGet_mem (m : List (String × Project)) (k : String) (p : Project)
    (h : mapGet m k = some p) : (k, p) ∈ m := by
  unfold mapGet at h
  cases hf : m.find? (fun kv => kv.1 = k) with
  | none => rw [hf] at h; simp at h
  | some kv =>
    rw [hf] at h
    have hmem := List.mem_of_find?_eq_some hf
    have hpred := List.find?_some hf
    obtain ⟨k1, v1⟩ := kv
    simp at hpred h
    subst hpred
    subst h
    exact hmem

/-- `mapSet` preserves the key/identity agreement when the stored value's id
is the key. -/
theorem mapSet_inv : ∀ (m : List (String × Project)) (k : String) (v : Project),
    (∀ kv ∈ m, kv.2.id = kv.1) → v.id = k →
    ∀ kv ∈ mapSet m k v, kv.2.id = kv.1 := by
  intro m
  induction m with
  | nil =>
    intro k v _ hv kv hkv
    simp [mapSet] at hkv
    subst hkv
    exact hv
  | cons kw rest ih =>
    intro k v hm hv kv hkv
    by_cases hk : kw.1 = k
    · rw [show mapSet (kw :: rest) k v = (k, v) :: rest by simp [mapSet, hk]]
        at hkv
      rcases List.mem_cons.mp hkv with h1 | h1
      · subst h1; exact hv
      · exact hm kv (List.mem_cons_of_mem _ h1)
    · rw [show mapSet (kw :: rest) k v = kw :: mapSet rest k v by
          simp [mapSet, hk]] at hkv
      rcases List.mem_cons.mp hkv with h1 | h1
      · subst h1; exact hm kv (List.mem_cons_self _ _)
      · exact ih k v (fun kv2 hkv2 => hm kv2 (List.mem_cons_of_mem _ hkv2)) hv
          kv h1

/-- `updateProject` preserves the key/identity agreement whenever the
payload's `id` key is absent or agrees with the target key. -/
theorem updateProject_inv (now : Int) (s : CMState) (pid : String)
    (data : ProjectData) (hs : ProjInv s)
    (hid : data.id = none ∨ data.id = some pid) :
    ProjInv (updateProject now s pid data).2 := by
  intro kv hkv
  refine mapSet_inv s.projects pid _ hs ?_ kv hkv
  have hmerge : (mergeData ((mapGet s.projects pid).getD (emptyProject pid now))
      data now).id =
      data.id.getD ((mapGet s.projects pid).getD (emptyProject pid now)).id := rfl
  rw [hmerge]
  rcases hid with h | h
  · rw [h]
    cases hm : mapGet s.projects pid with
    | none => simp [emptyProject]
    | some p => simpa using hs (pid, p) (mapGet_mem _ _ _ hm)
  · rw [h]
    rfl

/-- A `step` with an id-preserving operation keeps key/identity agreement. -/
theorem step_inv (op : Op) (s : CMState) (hop : opKeepsId op = true)
    (hs : ProjInv s) : ProjInv (step op s) := by
  cases op with
  | update now pid data =>
    refine updateProject_inv now s pid data hs (Or.inl ?_)
    simpa [opKeepsId, Option.isNone_iff_eq_none] using hop
  | addDoc now newId pid doc =>
    cases h : mapGet s.projects pid with
    | none =>
      intro kv hkv
      simp only [step, addDocument, h] at hkv
      exact hs kv hkv
    | some p =>
      have hpid : p.id = pid := hs (pid, p) (mapGet_mem _ _ _ h)
      intro kv hkv
      simp only [step, addDocument, h, updateProject] at hkv
      refine mapSet_inv s.projects pid _ hs ?_ kv hkv
      simp [mergeData, projectToData, hpid]
  | addTsk now newId newId2 pid task =>
    cases h : mapGet s.projects pid with
    | none =>
      intro kv hkv
      simp only [step, addTask, h] at hkv
      exact hs kv hkv
    | some p =>
      have hpid : p.id = pid := hs (pid, p) (mapGet_mem _ _ _ h)
      intro kv hkv
      cases hd : task.deadline with
      | none =>
        simp only [step, addTask, h, hd, updateProject] at hkv
        refine mapSet_inv s.projects pid _ hs ?_ kv hkv
        simp [mergeData, projectToData, hpid]
      | some d =>
        simp only [step, addTask, h, hd, updateProject] at hkv
        refine mapSet_inv s.projects pid _ hs ?_ kv hkv
        simp [mergeData, projectToData, hpid]
  | taskStatus now pid tid st =>
    cases h : mapGet s.projects pid with
    | none =>
      intro kv hkv
      simp only [step, updateTaskStatus, h] at hkv
      exact hs kv hkv
    | some p =>
      cases hf : p.tasks.find? (fun t => t.id = tid) with
      | none =>
        intro kv hkv
        simp only [step, updateTaskStatus, h, hf] at hkv
        exact hs kv hkv
      | some t =>
        have hpid : p.id = pid := hs (pid, p) (mapGet_mem _ _ _ h)
        intro kv hkv
        simp only [step, updateTaskStatus, h, hf, updateProject] at hkv
        refine mapSet_inv s.projects pid _ hs ?_ kv hkv
        simp [mergeData, projectToData, hpid]
  | addRsk now newId pid risk =>
    cases h : mapGet s.projects pid with
    | none =>
      intro kv hkv
      simp only [step, addRisk, h] at hkv
      exact hs kv hkv
    | some p =>
      have hpid : p.id = pid := hs (pid, p) (mapGet_mem _ _ _ h)
      intro kv hkv
      by_cases hsev : risk.severity = some "high" ∨ risk.severity = some "critical"
      · simp only [step, addRisk, h, updateProject, if_pos hsev] at hkv
        refine mapSet_inv s.projects pid _ hs ?_ kv hkv
        simp [mergeData, projectToData, hpid]
      · simp only [step, addRisk, h, updateProject, if_neg hsev] at hkv
        refine mapSet_inv s.projects pid _ hs ?_ kv hkv
        simp [mergeData, projectToData, hpid]
  | addDl now newId deadline => exact hs
  | resolve now issueId => exact hs
  | addSh now pid stakeholder =>
    cases h : mapGet s.projects pid with
    | none =>
      intro kv hkv
      simp only [step, addStakeholder, h] at hkv
      exact hs kv hkv
    | some p =>
      have hpid : p.id = pid := hs (pid, p) (mapGet_mem _ _ _ h)
      intro kv hkv
      simp only [step, addStakeholder, h, updateProject] at hkv
      refine mapSet_inv s.projects pid _ hs ?_ kv hkv
      simp [mergeData, projectToData, hpid]
  | addNt now pid note =>
    cases h : mapGet s.projects pid with
    | none =>
      intro kv hkv
      simp only [step, addNote, h] at hkv
      exact hs kv hkv
    | some p =>
      have hpid : p.id = pid := hs (pid, p) (mapGet_mem _ _ _ h)
      intro kv hkv
      simp only [step, addNote, h, updateProject] at hkv
      refine mapSet_inv s.projects pid _ hs ?_ kv hkv
      simp [mergeData, projectToData, hpid]

/-- Key/identity agreement holds along any id-preserving run. -/
theorem run_inv (ops : List Op) :
    ∀ s : CMState, (∀ op ∈ ops, opKeepsId op = true) → ProjInv s →
      ProjInv (run ops s) := by
  induction ops with
  | nil => intro s _ hs; exact hs
  | cons op ops ih =>
    intro s hops hs
    exact ih (step op s) (fun o ho => hops o (List.mem_cons_of_mem _ ho))
      (step_inv op s (hops op (List.mem_cons_self _ _)) hs)

/-- C8 (counterexample to the claim as stated): `upsertProject` with partial
data that itself carries an `id` key overwrites the stored project's
identity — after `updateProject "p" {id := "q"}` the project stored under
key `p` has id `q`. -/
theorem C8_counterexample :
    (getProject (updateProject 3
        (updateProject 1 initState "p" { name := some "A" }).2 "p"
        { id := some "q" }).2 "p").map Project.id = some "q" ∧
    (getProject (updateProject 1 initState "p" { name := some "A" }).2
        "p").map Project.id = some "p" := by
  decide

/-- C8 (amended): along every sequence of store operations in which no
`updateProject` payload carries an `id` key, every stored project's `id`
equals the key it was created under — no other mutation path can alter a
stored project's identity. -/
theorem C8_id_stable (ops : List Op)
    (h : ∀ op ∈ ops, opKeepsId op = true) :
    ∀ (k : String) (p : Project),
      mapGet (run ops initState).projects k = some p → p.id = k := by
  intro k p hget
  refine run_inv ops initState h ?_ (k, p) (mapGet_mem _ _ _ hget)
  intro kv hkv
  simp [initState] at hkv

/-- Witness for C8: the concrete id-preserving sequence `ops0` leaves the
project stored under `p` with id `p`. -/
theorem C8_witness :
    (mapGet (run ops0 initState).projects "p").map Project.id = some "p" := by
  have h := C8_id_stable ops0 (by decide)
  cases hm : mapGet (run ops0 initState).projects "p" with
  | none => exact absurd hm (by decide)
  | some p =>
    simp [h "p" p hm]

/-- Splitting a list by a predicate splits its length. -/
theorem length_filter_not_split {α : Type} (p : α → Bool) (l : List α) :
    (l.filter p).length + (l.filter (fun x => !(p x))).length = l.length := by
  induction l with
  | nil => rfl
  | cons x xs ih =>
    cases h : p x <;> simp [List.filter_cons, h] <;> omega

/-- The total-task reduce is a sum. -/
theorem totalTasks_eq (l : List Project) (n : Nat) :
    l.foldl (fun sum p => sum + p.tasks.length) n =
      n + (l.map (fun p => p.tasks.length)).sum := by
  induction l generalizing n with
  | nil => simp
  | cons p ps ih => simp [ih, Nat.add_assoc]

/-- The active-task reduce is a sum. -/
theorem activeTasks_eq (l : List Project) (n : Nat) :
    l.foldl (fun sum p =>
        sum + (p.tasks.filter (fun t => t.status = "pending")).length) n =
      n + (l.map (fun p =>
        (p.tasks.filter (fun t => t.status = "pending")).length)).sum := by
  induction l generalizing n with
  | nil => simp
  | cons p ps ih => simp [ih, Nat.add_assoc]

/-- Pointwise bound and difference for the per-project task sums. -/
theorem sum_sub_pointwise (l : List Project) :
    ((l.map (fun p =>
        (p.tasks.filter (fun t => t.status = "pending")).length)).sum ≤
      (l.map (fun p => p.tasks.length)).sum) ∧
    ((l.map (fun p => p.tasks.length)).sum -
      (l.map (fun p =>
        (p.tasks.filter (fun t => t.status = "pending")).length)).sum =
      (l.map (fun p =>
        (p.tasks.filter (fun t => !(t.status = "pending"))).length)).sum) := by
  induction l with
  | nil => exact ⟨Nat.le_refl 0, rfl⟩
  | cons p ps ih =>
    obtain ⟨ihle, iheq⟩ := ih
    have hsplit := length_filter_not_split
      (fun t => decide (t.status = "pending")) p.tasks
    simp only [List.map_cons, List.sum_cons]
    constructor
    · have hle := List.length_filter_le
        (fun t => decide (t.status = "pending")) p.tasks
      omega
    · omega

/-- C10: the dashboard's `tasks.completed` equals `total - active`, i.e. the
number of tasks across all projects whose status is anything other than
`pending` — and `updateTaskStatus` stores arbitrary status strings, so a
task whose status is neither `pending` nor `completed` is counted as
completed. -/
theorem C10_dashboard_completed :
    (∀ (now : Int) (s : CMState),
      (getDashboard now s).tasksCompleted =
        ((getAllProjects s).map (fun p =>
          (p.tasks.filter (fun t => !(t.status = "pending"))).length)).sum) ∧
    (∀ (now : Int) (s : CMState) (pid tid st : String) (t : Task)
        (s2 : CMState),
      updateTaskStatus now s pid tid st = Except.ok (t, s2) →
      t.status = st) := by
  constructor
  · intro now s
    have h3 := sum_sub_pointwise (getAllProjects s)
    simp only [getDashboard, totalTasks_eq, activeTasks_eq]
    omega
  · intro now s pid tid st t s2 hok
    simp only [updateTaskStatus] at hok
    cases hm : mapGet s.projects pid with
    | none =>
      simp only [hm] at hok
      exact Except.noConfusion hok
    | some p =>
      simp only [hm] at hok
      cases hf : p.tasks.find? (fun tk => tk.id = tid) with
      | none =>
        simp only [hf] at hok
        exact Except.noConfusion hok
      | some tk =>
        simp only [hf, updateProject, Except.ok.injEq, Prod.mk.injEq] at hok
        obtain ⟨ht, _⟩ := hok
        rw [← ht]

/-- Witness for C10: after `updateTaskStatus` sets the only task's status to
`blocked`, the dashboard reports it as completed. -/
theorem C10_witness :
    (getDashboard 0 c10after).tasksCompleted = 1 ∧
    ({ id := "t1", description := some "x", status := "blocked", createdAt := 1,
       updatedAt := some 2 } : Task).status = "blocked" :=
  ⟨(C10_dashboard_completed.1 0 c10after).trans (by decide),
   C10_dashboard_completed.2 2 c10state "p1" "t1" "blocked"
     { id := "t1", description := some "x", status := "blocked",
       createdAt := 1, updatedAt := some 2 } c10after rfl⟩

/-- C1: `addTask` with a deadline on the existing project `p1` (named
`Acme`) inserts exactly one deadline record carrying the project's id and
name — but the record stores the due date under `deadline` while both
queries read `date`, so even though the date (`now + 1 day`) lies inside the
`[now, now + 30 days]` window the record appears in neither
`getUpcomingDeadlines` nor `getOverdueDeadlines`. -/
theorem C1_task_deadline_unqueryable :
    ((addTask 10 "t1" "g1" c1state "p1"
        { description := some "x", deadline := some 86400010 }).toOption.map
      (fun r =>
        r.2.deadlines.map (fun d => (d.projectId, d.project, d.deadline, d.date)))) =
      some [(some "p1", some "Acme", some 86400010, none)] ∧
    ((addTask 10 "t1" "g1" c1state "p1"
        { description := some "x", deadline := some 86400010 }).toOption.map
      (fun r => getUpcomingDeadlines 10 30 r.2)) = some [] ∧
    ((addTask 10 "t1" "g1" c1state "p1"
        { description := some "x", deadline := some 86400010 }).toOption.map
      (fun r => getOverdueDeadlines 10 r.2)) = some [] ∧
    (10 : Int) ≤ 86400010 ∧ (86400010 : Int) ≤ 10 + 30 * msPerDay := by
  exact ⟨by decide, by decide, by decide, by decide, by decide⟩
